import Mathlib

/-!
Verification of the buzzer arbitration engine of this repository
(`src/app.py`): a shallow embedding of the sqlite-backed store and of the
functions `init_db`, `get_active_round`, `attempt_buzz` and `reset_round`,
together with proofs about the claims of the specification.

The store is modelled as explicit lists of table rows with the next
autoincrement ids.  Timestamps (`utc_now_iso` in the source) are passed in
as parameters.  Storage faults (`sqlite3.Error`) are modelled by a fault
oracle `Option (Nat × String)`: `some (k, d)` means the backend raises an
error with detail `d` at the k-th statement of the transaction, in which
case the transaction is rolled back to the store as it was before `BEGIN`
(the sqlite guarantee).  `attempt_buzz` catches the error (lines 119-124 of
the source); `reset_round` has no handler, so there a fault surfaces as an
`Except.error`.
-/

/-- A row of the `rounds` table (src/app.py lines 24-31). -/
structure Round where
  id : Nat
  is_active : Bool
  winner_name : Option String
  winner_time_utc : Option String
  deriving DecidableEq, Repr

/-- A row of the `buzz_log` table (src/app.py lines 34-43). -/
structure LogEntry where
  id : Nat
  round_id : Nat
  player_name : String
  buzz_time_utc : String
  was_winner : Bool
  deriving DecidableEq, Repr

/-- The sqlite database: both tables plus the autoincrement counters. -/
structure Store where
  rounds : List Round
  buzz_log : List LogEntry
  next_round_id : Nat
  next_log_id : Nat
  deriving DecidableEq, Repr

/-- Model of Python `str.strip()`: drop whitespace from both ends. -/
def strip (s : String) : String :=
  ⟨((s.data.dropWhile Char.isWhitespace).reverse.dropWhile Char.isWhitespace).reverse⟩

/-- One step of `ORDER BY id DESC LIMIT 1`: keep the row with the larger id. -/
def pickLatest (acc : Option Round) (r : Round) : Option Round :=
  match acc with
  | none => some r
  | some b => if b.id < r.id then some r else some b

/-- The query `SELECT * FROM rounds WHERE is_active = 1 ORDER BY id DESC LIMIT 1`. -/
def active_max (l : List Round) : Option Round :=
  (l.filter (fun r => r.is_active)).foldl pickLatest none

/-- src/app.py lines 54-57. -/
def get_active_round (s : Store) : Option Round :=
  active_max s.rounds

/-- The statement `INSERT INTO rounds (is_active) VALUES (1)`: fresh id, active, no winner. -/
def insert_round (s : Store) : Round × Store :=
  let r : Round := ⟨s.next_round_id, true, none, none⟩
  (r, { s with rounds := s.rounds ++ [r], next_round_id := s.next_round_id + 1 })

/-- The statement `INSERT INTO buzz_log (...) VALUES (?, ?, ?, 0)` (src/app.py lines 96-99). -/
def insert_log (s : Store) (round_id : Nat) (player buzz_time : String) : Store :=
  { s with
    buzz_log := s.buzz_log ++ [⟨s.next_log_id, round_id, player, buzz_time, false⟩],
    next_log_id := s.next_log_id + 1 }

/-- Per-row effect of the conditional winner update: set the winner fields
only on the row with the given id whose `winner_name` is still NULL. -/
def claimUpd (round_id : Nat) (player buzz_time : String) (r : Round) : Round :=
  if r.id = round_id ∧ r.winner_name = none then
    { r with winner_name := some player, winner_time_utc := some buzz_time }
  else r

/-- The statement `UPDATE rounds SET winner_name = ?, winner_time_utc = ? WHERE id = ? AND
winner_name IS NULL` (src/app.py lines 106-109). -/
def claim_winner (s : Store) (round_id : Nat) (player buzz_time : String) : Store :=
  { s with rounds := s.rounds.map (claimUpd round_id player buzz_time) }

/-- One step of `ORDER BY id DESC LIMIT 1` on the log: keep the larger id. -/
def latestAux (acc : Option Nat) (e : LogEntry) : Option Nat :=
  match acc with
  | none => some e.id
  | some b => if b < e.id then some e.id else some b

/-- The query `SELECT id FROM buzz_log ORDER BY id DESC LIMIT 1`: the largest log id. -/
def latest_log_id (s : Store) : Option Nat :=
  s.buzz_log.foldl latestAux none

/-- The statement `UPDATE buzz_log SET was_winner = 1 WHERE id = (SELECT id FROM buzz_log
ORDER BY id DESC LIMIT 1)` (src/app.py lines 112-114): mark the most recently
inserted log row overall. -/
def mark_latest_winner (s : Store) : Store :=
  match latest_log_id s with
  | none => s
  | some i =>
      { s with buzz_log := s.buzz_log.map (fun e =>
          if e.id = i then { e with was_winner := true } else e) }

/-- Python truthiness of `winner_name` (None or str) at line 101. -/
def truthy : Option String → Bool
  | none => false
  | some w => !(w == "")

/-- Does the fault oracle raise at statement `i` of the transaction? -/
def faultHere (fault : Option (Nat × String)) (i : Nat) : Bool :=
  match fault with
  | some (j, _) => j == i
  | none => false

/-- The detail string carried by the fault oracle. -/
def faultMsg (fault : Option (Nat × String)) : String :=
  match fault with
  | some (_, d) => d
  | none => ""

/-- The except-branch of `attempt_buzz` (src/app.py lines 119-124): roll back
to the pre-transaction store `s0` and return the error as a value. -/
def dbErrorResult (fault : Option (Nat × String)) (s0 : Store) : (Bool × String) × Store :=
  ((false, "Database error: " ++ faultMsg fault), s0)

/-- src/app.py lines 105-117: the code that runs once the open-winner check
has passed.  It performs the conditional `claim_winner` update, marks the
most recent log row as winner, and returns won=true — unconditionally, with
no check of whether the conditional update actually set a row. -/
def claim_and_finish (s : Store) (round_id : Nat) (player buzz_time : String) :
    (Bool × String) × Store :=
  let s1 := claim_winner s round_id player buzz_time
  let s2 := mark_latest_winner s1
  ((true, "✅ You buzzed in FIRST!"), s2)

/-- src/app.py lines 93-117: the transaction body after the active round has
been determined.  `s0` is the pre-transaction store (rollback target), `s`
the current store, `prior_winner` the winner read from the active round.
Fault indices: 3 = log insert, 4 = commit of the too-late branch, 5-7 =
claim update, winner-mark update, final commit. -/
def after_log (s0 s : Store) (round_id : Nat) (prior_winner : Option String)
    (player buzz_time : String) (fault : Option (Nat × String)) :
    (Bool × String) × Store :=
  if faultHere fault 3 then dbErrorResult fault s0
  else
    let s2 := insert_log s round_id player buzz_time
    if truthy prior_winner then
      if faultHere fault 4 then dbErrorResult fault s0
      else ((false, "Too late — " ++ prior_winner.getD "" ++ " already buzzed first."), s2)
    else
      if faultHere fault 5 then dbErrorResult fault s0
      else if faultHere fault 6 then dbErrorResult fault s0
      else if faultHere fault 7 then dbErrorResult fault s0
      else claim_and_finish s2 round_id player buzz_time

/-- src/app.py lines 67-126.  The empty-name rejection happens before the
connection and transaction exist, so no fault index applies to it.  Fault
indices inside the try-block: 0 = `BEGIN IMMEDIATE`, 1 = the active-round
SELECT, 2 = the self-healing round insert, 3-7 as in `after_log`. -/
def attempt_buzz (s : Store) (player_name : Option String) (now : String)
    (fault : Option (Nat × String)) : (Bool × String) × Store :=
  let pname := strip (player_name.getD "")
  if pname = "" then ((false, "Enter your name first."), s)
  else if faultHere fault 0 then dbErrorResult fault s
  else if faultHere fault 1 then dbErrorResult fault s
  else
    match get_active_round s with
    | none =>
        if faultHere fault 2 then dbErrorResult fault s
        else
          let rs := insert_round s
          after_log s rs.2 rs.1.id none pname now fault
    | some rnd => after_log s s rnd.id rnd.winner_name pname now fault

/-- Per-row effect of `UPDATE rounds SET is_active = 0 WHERE is_active = 1`. -/
def deactivateUpd (r : Round) : Round :=
  if r.is_active then { r with is_active := false } else r

/-- src/app.py line 134. -/
def deactivate_rounds (s : Store) : Store :=
  { s with rounds := s.rounds.map deactivateUpd }

/-- src/app.py lines 129-138.  The function has no try/except: a storage
fault raises out of it (`Except.error`), it never returns a failure value.
Fault indices: 0 = `BEGIN IMMEDIATE`, 1 = deactivate update, 2 = round
insert, 3 = commit. -/
def reset_round (s : Store) (fault : Option (Nat × String)) : Except String Store :=
  if faultHere fault 0 then .error (faultMsg fault)
  else if faultHere fault 1 then .error (faultMsg fault)
  else
    let s1 := deactivate_rounds s
    if faultHere fault 2 then .error (faultMsg fault)
    else
      let s2 := (insert_round s1).2
      if faultHere fault 3 then .error (faultMsg fault)
      else .ok s2

/-- src/app.py lines 19-51: table creation plus "ensure there is exactly one
active round" — insert an active round only when none exists. -/
def init_db (s : Store) : Store :=
  match get_active_round s with
  | none => (insert_round s).2
  | some _ => s

/-- The freshly created database: empty tables, autoincrement ids start at 1. -/
def emptyStore : Store := ⟨[], [], 1, 1⟩

/-- The store after process start (`init_db` on a fresh database). -/
def initStore : Store := init_db emptyStore

/-- An engine operation, with its storage-fault oracle. -/
inductive Op where
  | buzz (player_name : Option String) (now : String) (fault : Option (Nat × String))
  | reset (fault : Option (Nat × String))
  deriving DecidableEq, Repr

/-- The store after one operation.  A fault in `reset_round` escapes as an
exception before commit, so the uncommitted transaction is rolled back and
the store is unchanged. -/
def execOp (s : Store) : Op → Store
  | .buzz pn now f => (attempt_buzz s pn now f).2
  | .reset f =>
      match reset_round s f with
      | .ok s' => s'
      | .error _ => s

/-- The store after a sequence of operations. -/
def runOps (s : Store) (ops : List Op) : Store :=
  ops.foldl execOp s

/-- Run a list of fault-free buzz calls (name, timestamp), collecting the
results and the final store. -/
def buzzMany : Store → List (String × String) → List (Bool × String) × Store
  | s, [] => ([], s)
  | s, (p, t) :: rest =>
      let r := attempt_buzz s (some p) t none
      let out := buzzMany r.2 rest
      (r.1 :: out.1, out.2)

/-- The stores after each call of a list of fault-free buzz calls. -/
def buzzStores : Store → List (String × String) → List Store
  | _, [] => []
  | s, (p, t) :: rest =>
      let s' := (attempt_buzz s (some p) t none).2
      s' :: buzzStores s' rest

/-- Number of rounds with `is_active = 1` (invariant I1 talks about it). -/
def activeCount (s : Store) : Nat :=
  (s.rounds.filter (fun r => r.is_active)).length

/-- Round ids are below the autoincrement counter. -/
def roundIdsBounded (s : Store) : Prop :=
  ∀ r ∈ s.rounds, r.id < s.next_round_id

/-- Log ids are below the autoincrement counter. -/
def logIdsBounded (s : Store) : Prop :=
  ∀ e ∈ s.buzz_log, e.id < s.next_log_id

/-- Round ids are pairwise distinct (primary key). -/
def roundIdsNodup (s : Store) : Prop :=
  (s.rounds.map Round.id).Nodup

/-- Log ids are pairwise distinct (primary key). -/
def logIdsNodup (s : Store) : Prop :=
  (s.buzz_log.map LogEntry.id).Nodup

/-- Well-formedness of the store, as sqlite maintains it. -/
def WF (s : Store) : Prop :=
  roundIdsBounded s ∧ roundIdsNodup s ∧ logIdsBounded s ∧ logIdsNodup s

/-- Property P3 of the specification: a round with non-null winner fields has
exactly one winning log row, and that row carries the winner name and
time. -/
def winnerConsistent (s : Store) : Prop :=
  ∀ r ∈ s.rounds, (r.winner_name ≠ none ∨ r.winner_time_utc ≠ none) →
    r.winner_name ≠ none ∧ r.winner_time_utc ≠ none ∧
    s.buzz_log.countP (fun e => e.round_id == r.id && e.was_winner) = 1 ∧
    ∀ e ∈ s.buzz_log, e.round_id = r.id → e.was_winner = true →
      some e.player_name = r.winner_name ∧ some e.buzz_time_utc = r.winner_time_utc

/-- The inductive invariant: well-formedness, winners are never the empty
string, winner name and time are set together, P3, and every winning log row
points back to a round whose winner fields match it. -/
def StoreInv (s : Store) : Prop :=
  WF s ∧
  (∀ r ∈ s.rounds, r.winner_name ≠ some "") ∧
  (∀ r ∈ s.rounds, (r.winner_name = none ↔ r.winner_time_utc = none)) ∧
  winnerConsistent s ∧
  (∀ e ∈ s.buzz_log, e.was_winner = true →
    ∃ r, r ∈ s.rounds ∧ r.id = e.round_id ∧
      r.winner_name = some e.player_name ∧ r.winner_time_utc = some e.buzz_time_utc)

instance (s : Store) : Decidable (roundIdsBounded s) := by
  unfold roundIdsBounded
  infer_instance

instance (s : Store) : Decidable (roundIdsNodup s) := by
  unfold roundIdsNodup
  infer_instance

instance (s : Store) : Decidable (logIdsBounded s) := by
  unfold logIdsBounded
  infer_instance

instance (s : Store) : Decidable (logIdsNodup s) := by
  unfold logIdsNodup
  infer_instance

instance (s : Store) : Decidable (WF s) := by
  unfold WF
  infer_instance

instance (s : Store) : Decidable (winnerConsistent s) := by
  unfold winnerConsistent
  infer_instance

instance (s : Store) : Decidable (StoreInv s) := by
  unfold StoreInv
  infer_instance

theorem foldl_pickLatest_isSome (l : List Round) (b : Round) :
    (l.foldl pickLatest (some b)).isSome := by
  induction l generalizing b with
  | nil => rfl
  | cons x xs ih =>
      simp only [List.foldl_cons, pickLatest]
      split
      · exact ih x
      · exact ih b

theorem foldl_pickLatest_mem (l : List Round) (acc : Option Round) (b : Round)
    (h : l.foldl pickLatest acc = some b) : b ∈ l ∨ acc = some b := by
  induction l generalizing acc with
  | nil => right; exact h
  | cons x xs ih =>
      simp only [List.foldl_cons] at h
      rcases ih (pickLatest acc x) h with hmem | hacc
      · left; exact List.mem_cons_of_mem _ hmem
      · cases acc with
        | none =>
            simp only [pickLatest] at hacc
            left; rw [Option.some_inj] at hacc; rw [← hacc]; exact List.mem_cons_self x xs
        | some a =>
            simp only [pickLatest] at hacc
            split at hacc
            · left; rw [Option.some_inj] at hacc; rw [← hacc]; exact List.mem_cons_self x xs
            · right; exact hacc

theorem active_max_eq_none_iff (l : List Round) :
    active_max l = none ↔ l.filter (fun r => r.is_active) = [] := by
  unfold active_max
  cases hf : l.filter (fun r => r.is_active) with
  | nil => simp
  | cons x xs =>
      simp only [List.foldl_cons, pickLatest]
      constructor
      · intro h
        have := foldl_pickLatest_isSome xs x
        rw [h] at this
        exact absurd this (by simp)
      · intro h; exact absurd h (by simp)

theorem foldl_pickLatest_map (f : Round → Round) (hid : ∀ r, (f r).id = r.id)
    (l : List Round) (acc : Option Round) :
    (l.map f).foldl pickLatest (acc.map f) = (l.foldl pickLatest acc).map f := by
  induction l generalizing acc with
  | nil => rfl
  | cons x xs ih =>
      simp only [List.map_cons, List.foldl_cons]
      have hstep : pickLatest (acc.map f) (f x) = (pickLatest acc x).map f := by
        cases acc with
        | none => rfl
        | some a =>
            show pickLatest (some (f a)) (f x) = (pickLatest (some a) x).map f
            simp only [pickLatest, hid]
            split <;> rfl
      rw [hstep, ih]

theorem filter_active_map (f : Round → Round) (hact : ∀ r, (f r).is_active = r.is_active)
    (l : List Round) :
    (l.map f).filter (fun r => r.is_active) = (l.filter (fun r => r.is_active)).map f := by
  induction l with
  | nil => rfl
  | cons x xs ih =>
      simp only [List.map_cons, List.filter_cons, hact]
      cases hx : x.is_active <;> simp [ih]

theorem active_max_map (f : Round → Round) (hid : ∀ r, (f r).id = r.id)
    (hact : ∀ r, (f r).is_active = r.is_active) (l : List Round) :
    active_max (l.map f) = (active_max l).map f := by
  unfold active_max
  rw [filter_active_map f hact l]
  have := foldl_pickLatest_map f hid (l.filter (fun r => r.is_active)) none
  simpa using this

theorem active_max_append_lt (l : List Round) (n : Round)
    (hbig : ∀ r ∈ l, r.id < n.id) (hact : n.is_active = true) :
    active_max (l ++ [n]) = some n := by
  unfold active_max
  rw [List.filter_append, List.foldl_append]
  have hn : List.filter (fun r => r.is_active) [n] = [n] := by
    simp [List.filter_cons, hact]
  rw [hn]
  simp only [List.foldl_cons, List.foldl_nil]
  cases hacc : (l.filter (fun r => r.is_active)).foldl pickLatest none with
  | none => rfl
  | some b =>
      rcases foldl_pickLatest_mem _ _ _ hacc with hmem | hbad
      · have hb : b ∈ l := List.mem_of_mem_filter hmem
        simp [pickLatest, hbig b hb]
      · exact absurd hbad (by simp)

theorem active_max_all_inactive (l : List Round)
    (h : ∀ r ∈ l, r.is_active = false) : active_max l = none := by
  rw [active_max_eq_none_iff]
  rw [List.filter_eq_nil_iff]
  intro r hr
  simp [h r hr]

theorem get_active_round_mem {s : Store} {R : Round}
    (h : get_active_round s = some R) : R ∈ s.rounds ∧ R.is_active = true := by
  unfold get_active_round active_max at h
  rcases foldl_pickLatest_mem _ _ _ h with hmem | hbad
  · exact ⟨List.mem_of_mem_filter hmem, by simpa using List.of_mem_filter hmem⟩
  · exact absurd hbad (by simp)

theorem insert_log_rounds (s : Store) (rid : Nat) (p t : String) :
    (insert_log s rid p t).rounds = s.rounds := rfl

theorem claim_winner_rounds (s : Store) (rid : Nat) (p t : String) :
    (claim_winner s rid p t).rounds = s.rounds.map (claimUpd rid p t) := rfl

theorem claim_winner_log (s : Store) (rid : Nat) (p t : String) :
    (claim_winner s rid p t).buzz_log = s.buzz_log := rfl

theorem mark_latest_winner_rounds (s : Store) :
    (mark_latest_winner s).rounds = s.rounds := by
  unfold mark_latest_winner
  split <;> rfl

theorem claimUpd_id (rid : Nat) (p t : String) (r : Round) :
    (claimUpd rid p t r).id = r.id := by
  unfold claimUpd
  split <;> rfl

theorem claimUpd_is_active (rid : Nat) (p t : String) (r : Round) :
    (claimUpd rid p t r).is_active = r.is_active := by
  unfold claimUpd
  split <;> rfl

theorem get_active_round_insert_log (s : Store) (rid : Nat) (p t : String) :
    get_active_round (insert_log s rid p t) = get_active_round s := rfl

theorem get_active_round_mark (s : Store) :
    get_active_round (mark_latest_winner s) = get_active_round s := by
  unfold get_active_round
  rw [mark_latest_winner_rounds]

theorem get_active_round_claim (s : Store) (rid : Nat) (p t : String) :
    get_active_round (claim_winner s rid p t)
      = (get_active_round s).map (claimUpd rid p t) := by
  unfold get_active_round
  rw [claim_winner_rounds]
  exact active_max_map _ (claimUpd_id rid p t) (claimUpd_is_active rid p t) s.rounds

theorem claim_and_finish_fst (s : Store) (rid : Nat) (p t : String) :
    (claim_and_finish s rid p t).1 = (true, "✅ You buzzed in FIRST!") := rfl

theorem claim_and_finish_snd (s : Store) (rid : Nat) (p t : String) :
    (claim_and_finish s rid p t).2 = mark_latest_winner (claim_winner s rid p t) := rfl

theorem attempt_buzz_invalid (s : Store) (pn : Option String) (now : String)
    (fault : Option (Nat × String)) (h : strip (pn.getD "") = "") :
    attempt_buzz s pn now fault = ((false, "Enter your name first."), s) := by
  unfold attempt_buzz
  simp [h]

theorem attempt_buzz_decided (s : Store) (pn : Option String) (now : String)
    (R : Round) (w : String)
    (hR : get_active_round s = some R) (hw : R.winner_name = some w) (hwne : w ≠ "")
    (hp : strip (pn.getD "") ≠ "") :
    attempt_buzz s pn now none =
      ((false, "Too late — " ++ w ++ " already buzzed first."),
        insert_log s R.id (strip (pn.getD "")) now) := by
  unfold attempt_buzz after_log
  simp [hp, faultHere, hR, hw, truthy, hwne]

theorem attempt_buzz_untruthy (s : Store) (pn : Option String) (now : String) (R : Round)
    (hR : get_active_round s = some R) (hw : truthy R.winner_name = false)
    (hp : strip (pn.getD "") ≠ "") :
    attempt_buzz s pn now none =
      claim_and_finish (insert_log s R.id (strip (pn.getD "")) now)
        R.id (strip (pn.getD "")) now := by
  unfold attempt_buzz after_log
  simp [hp, faultHere, hR, hw]

theorem attempt_buzz_open (s : Store) (pn : Option String) (now : String) (R : Round)
    (hR : get_active_round s = some R) (hw : R.winner_name = none)
    (hp : strip (pn.getD "") ≠ "") :
    attempt_buzz s pn now none =
      claim_and_finish (insert_log s R.id (strip (pn.getD "")) now)
        R.id (strip (pn.getD "")) now :=
  attempt_buzz_untruthy s pn now R hR (by rw [hw]; rfl) hp

theorem attempt_buzz_selfheal (s : Store) (pn : Option String) (now : String)
    (hR : get_active_round s = none) (hp : strip (pn.getD "") ≠ "") :
    attempt_buzz s pn now none =
      claim_and_finish
        (insert_log (insert_round s).2 s.next_round_id (strip (pn.getD "")) now)
        s.next_round_id (strip (pn.getD "")) now := by
  unfold attempt_buzz after_log
  simp [hp, faultHere, hR, truthy, insert_round]

theorem active_after_open_win (s : Store) (pn : Option String) (now : String) (R : Round)
    (hR : get_active_round s = some R) (hw : R.winner_name = none)
    (hp : strip (pn.getD "") ≠ "") :
    get_active_round ((attempt_buzz s pn now none).2)
      = some { R with winner_name := some (strip (pn.getD "")),
                      winner_time_utc := some now } := by
  rw [attempt_buzz_open s pn now R hR hw hp, claim_and_finish_snd,
    get_active_round_mark, get_active_round_claim, get_active_round_insert_log, hR]
  simp [claimUpd, hw]

theorem buzzMany_decided (rest : List (String × String)) :
    ∀ (s1 : Store) (R1 : Round) (w : String),
    get_active_round s1 = some R1 → R1.winner_name = some w → w ≠ "" →
    (∀ c ∈ rest, strip c.1 ≠ "") →
    (buzzMany s1 rest).1
        = rest.map (fun _ => (false, "Too late — " ++ w ++ " already buzzed first.")) ∧
    ∀ s' ∈ buzzStores s1 rest, get_active_round s' = some R1 := by
  induction rest with
  | nil => intro s1 R1 w _ _ _ _; simp [buzzMany, buzzStores]
  | cons c cs ih =>
      intro s1 R1 w hR hw hwne hv
      obtain ⟨p, t⟩ := c
      have hp : strip p ≠ "" := hv (p, t) (List.mem_cons_self _ _)
      have hstep := attempt_buzz_decided s1 (some p) t R1 w hR hw hwne hp
      simp only [Option.getD_some] at hstep
      have hact2 : get_active_round (insert_log s1 R1.id (strip p) t) = some R1 := by
        rw [get_active_round_insert_log]; exact hR
      have htail := ih (insert_log s1 R1.id (strip p) t) R1 w hact2 hw hwne
        (fun c hc => hv c (List.mem_cons_of_mem _ hc))
      constructor
      · simp only [buzzMany, hstep, List.map_cons]
        rw [htail.1]
      · intro s' hs'
        simp only [buzzStores, hstep] at hs'
        rcases List.mem_cons.mp hs' with h | h
        · rw [h]; exact hact2
        · exact htail.2 s' h

/-- C1: single winner per round.  Against a store whose active round `R` has
no winner yet, a non-empty sequence of valid attempt calls produces exactly
one won=true (the first call), every other call gets the too-late message
naming the first caller, and after the first call the winner
fields stay equal to the first caller's name and timestamp. -/
theorem single_winner_per_round (s : Store) (R : Round) (p t : String)
    (rest : List (String × String))
    (hR : get_active_round s = some R) (hw : R.winner_name = none)
    (hp : strip p ≠ "") (hrest : ∀ c ∈ rest, strip c.1 ≠ "")
    (_hdist : (((p, t) :: rest).map (fun c => strip c.1)).Nodup) :
    (buzzMany s ((p, t) :: rest)).1.countP (fun r => r.1) = 1 ∧
    (buzzMany s ((p, t) :: rest)).1.head? = some (true, "✅ You buzzed in FIRST!") ∧
    (∀ r ∈ (buzzMany s ((p, t) :: rest)).1.tail,
        r = (false, "Too late — " ++ strip p ++ " already buzzed first.")) ∧
    (∀ s' ∈ buzzStores s ((p, t) :: rest),
        ∃ R', get_active_round s' = some R' ∧ R'.id = R.id ∧
          R'.winner_name = some (strip p) ∧ R'.winner_time_utc = some t) := by
  have hopen := attempt_buzz_open s (some p) t R hR hw hp
  simp only [Option.getD_some] at hopen
  have hact1 := active_after_open_win s (some p) t R hR hw hp
  simp only [Option.getD_some] at hact1
  have hfst : (attempt_buzz s (some p) t none).1 = (true, "✅ You buzzed in FIRST!") := by
    rw [hopen, claim_and_finish_fst]
  have htail := buzzMany_decided rest ((attempt_buzz s (some p) t none).2)
    { R with winner_name := some (strip p), winner_time_utc := some t }
    (strip p) hact1 rfl hp hrest
  refine ⟨?_, ?_, ?_, ?_⟩
  · simp only [buzzMany, List.countP_cons, hfst, htail.1]
    simp [List.countP_map, Function.comp]
  · simp only [buzzMany, hfst, List.head?_cons]
  · intro r hr
    simp only [buzzMany, List.tail_cons] at hr
    rw [htail.1] at hr
    rcases List.mem_map.mp hr with ⟨c, _, hc⟩
    exact hc.symm
  · intro s' hs'
    simp only [buzzStores] at hs'
    rcases List.mem_cons.mp hs' with h | h
    · subst h
      exact ⟨_, hact1, rfl, rfl, rfl⟩
    · exact ⟨_, htail.2 s' h, rfl, rfl, rfl⟩

theorem attempt_buzz_fault_split (s : Store) (pn : Option String) (now : String)
    (k : Nat) (d : String) :
    attempt_buzz s pn now (some (k, d)) = ((false, "Database error: " ++ d), s)
    ∨ attempt_buzz s pn now (some (k, d)) = attempt_buzz s pn now none := by
  by_cases hname : strip (pn.getD "") = ""
  · right
    rw [attempt_buzz_invalid s pn now _ hname, attempt_buzz_invalid s pn now _ hname]
  · unfold attempt_buzz after_log
    cases hz : get_active_round s <;>
      simp only [hname, hz, faultHere, faultMsg, if_false, Bool.false_eq_true,
        dbErrorResult] <;>
      split_ifs <;>
      simp_all

theorem reset_round_fault_split (s : Store) (k : Nat) (d : String) :
    reset_round s (some (k, d)) = .error d
    ∨ reset_round s (some (k, d)) = reset_round s none := by
  unfold reset_round
  simp only [faultHere, faultMsg]
  split_ifs <;> simp_all

theorem activeCount_insert_log (s : Store) (rid : Nat) (p t : String) :
    activeCount (insert_log s rid p t) = activeCount s := rfl

theorem activeCount_claim (s : Store) (rid : Nat) (p t : String) :
    activeCount (claim_winner s rid p t) = activeCount s := by
  unfold activeCount
  rw [claim_winner_rounds, filter_active_map _ (claimUpd_is_active rid p t),
    List.length_map]

theorem activeCount_mark (s : Store) :
    activeCount (mark_latest_winner s) = activeCount s := by
  unfold activeCount
  rw [mark_latest_winner_rounds]

theorem activeCount_insert_round (s : Store) :
    activeCount (insert_round s).2 = activeCount s + 1 := by
  unfold activeCount insert_round
  simp [List.filter_append]

theorem deactivate_rounds_inactive (s : Store) :
    ∀ r ∈ (deactivate_rounds s).rounds, r.is_active = false := by
  intro r hr
  obtain ⟨x, _, rfl⟩ := List.mem_map.mp hr
  unfold deactivateUpd
  split
  · rfl
  · next h => simpa using h

theorem activeCount_deactivate (s : Store) :
    activeCount (deactivate_rounds s) = 0 := by
  unfold activeCount
  rw [List.length_eq_zero, List.filter_eq_nil_iff]
  intro r hr
  simp [deactivate_rounds_inactive s r hr]

theorem get_active_round_none_iff (s : Store) :
    get_active_round s = none ↔ activeCount s = 0 := by
  unfold get_active_round activeCount
  rw [active_max_eq_none_iff, List.length_eq_zero]

theorem truthy_eq_true {o : Option String} (h : truthy o = true) :
    ∃ w, o = some w ∧ w ≠ "" := by
  cases o with
  | none => exact absurd h (by simp [truthy])
  | some w =>
      refine ⟨w, rfl, ?_⟩
      simpa [truthy] using h

theorem attempt_buzz_some_shape (s : Store) (pn : Option String) (now : String)
    (R : Round) (hR : get_active_round s = some R) :
    ((attempt_buzz s pn now none).2).rounds.length = s.rounds.length ∧
    activeCount ((attempt_buzz s pn now none).2) = activeCount s := by
  by_cases hname : strip (pn.getD "") = ""
  · rw [attempt_buzz_invalid s pn now none hname]
    exact ⟨rfl, rfl⟩
  · cases htr : truthy R.winner_name with
    | false =>
        rw [attempt_buzz_untruthy s pn now R hR htr hname, claim_and_finish_snd]
        constructor
        · rw [mark_latest_winner_rounds, claim_winner_rounds, List.length_map,
            insert_log_rounds]
        · rw [activeCount_mark, activeCount_claim, activeCount_insert_log]
    | true =>
        obtain ⟨w, hw, hwne⟩ := truthy_eq_true htr
        rw [attempt_buzz_decided s pn now R w hR hw hwne hname]
        exact ⟨rfl, rfl⟩

theorem execOp_buzz_fault (s : Store) (pn : Option String) (now : String)
    (fault : Option (Nat × String)) :
    execOp s (.buzz pn now fault) = s
    ∨ execOp s (.buzz pn now fault) = (attempt_buzz s pn now none).2 := by
  cases fault with
  | none => right; rfl
  | some kd =>
      obtain ⟨k, d⟩ := kd
      rcases attempt_buzz_fault_split s pn now k d with h | h
      · left; show (attempt_buzz s pn now (some (k, d))).2 = s; rw [h]
      · right; show (attempt_buzz s pn now (some (k, d))).2 = _; rw [h]

theorem execOp_reset_fault (s : Store) (fault : Option (Nat × String)) :
    execOp s (.reset fault) = s
    ∨ execOp s (.reset fault) = (insert_round (deactivate_rounds s)).2 := by
  cases fault with
  | none => right; rfl
  | some kd =>
      obtain ⟨k, d⟩ := kd
      rcases reset_round_fault_split s k d with h | h
      · left; show execOp s (.reset (some (k, d))) = s; simp [execOp, h]
      · have : reset_round s none = .ok (insert_round (deactivate_rounds s)).2 := rfl
        right; simp [execOp, h, this]

theorem activeCount_reset (s : Store) :
    activeCount (insert_round (deactivate_rounds s)).2 = 1 := by
  rw [activeCount_insert_round, activeCount_deactivate]

/-- C9 (invariant I1): the initialized database has exactly one active round;
every engine operation (buzz with any input and any storage-fault behaviour,
reset with any storage-fault behaviour) preserves this; a buzz call made
while an active round exists creates no round row; a fault-free reset always
leaves exactly one active round; and the self-healing branch of
`attempt_buzz` creates exactly one (active) round when none was active. -/
theorem exactly_one_active_round :
    activeCount initStore = 1 ∧
    (∀ s op, activeCount s = 1 → activeCount (execOp s op) = 1) ∧
    (∀ s pn now, (get_active_round s).isSome →
        ((attempt_buzz s pn now none).2).rounds.length = s.rounds.length) ∧
    (∀ s, activeCount (execOp s (.reset none)) = 1) ∧
    (∀ s pn now, get_active_round s = none → strip (pn.getD "") ≠ "" →
        activeCount ((attempt_buzz s pn now none).2) = activeCount s + 1) := by
  refine ⟨by decide, ?_, ?_, ?_, ?_⟩
  · intro s op h1
    cases op with
    | buzz pn now fault =>
        rcases execOp_buzz_fault s pn now fault with he | he
        · rw [he]; exact h1
        · rw [he]
          have hsome : get_active_round s ≠ none := by
            intro hc
            rw [get_active_round_none_iff] at hc
            omega
          cases hz : get_active_round s with
          | none => exact absurd hz hsome
          | some R => rw [(attempt_buzz_some_shape s pn now R hz).2]; exact h1
    | reset fault =>
        rcases execOp_reset_fault s fault with he | he
        · rw [he]; exact h1
        · rw [he]; exact activeCount_reset s
  · intro s pn now hsome
    cases hz : get_active_round s with
    | none => rw [hz] at hsome; exact absurd hsome (by simp)
    | some R => exact (attempt_buzz_some_shape s pn now R hz).1
  · intro s
    have he : execOp s (.reset none) = (insert_round (deactivate_rounds s)).2 := rfl
    rw [he]
    exact activeCount_reset s
  · intro s pn now hz hname
    rw [attempt_buzz_selfheal s pn now hz hname, claim_and_finish_snd,
      activeCount_mark, activeCount_claim, activeCount_insert_log,
      activeCount_insert_round]

theorem deactivateUpd_id (r : Round) : (deactivateUpd r).id = r.id := by
  unfold deactivateUpd
  split <;> rfl

theorem deactivateUpd_winner_name (r : Round) :
    (deactivateUpd r).winner_name = r.winner_name := by
  unfold deactivateUpd
  split <;> rfl

theorem deactivateUpd_winner_time (r : Round) :
    (deactivateUpd r).winner_time_utc = r.winner_time_utc := by
  unfold deactivateUpd
  split <;> rfl

theorem deactivateUpd_inactive (r : Round) : (deactivateUpd r).is_active = false := by
  unfold deactivateUpd
  split
  · rfl
  · next h => simpa using h

/-- C7 (P4, reset creates fresh state): from any well-formed store with an
active round `R`, `reset_round` succeeds and afterwards the active round is a
brand-new one with null winner fields and an id greater than `R.id`, while a
row with `R.id` still exists, deactivated, with the winner fields of `R`
unchanged. -/
theorem reset_creates_fresh_state (s : Store) (R : Round)
    (hb : roundIdsBounded s) (hR : get_active_round s = some R) :
    ∃ s', reset_round s none = .ok s' ∧
      ∃ R', get_active_round s' = some R' ∧
        R'.winner_name = none ∧ R'.winner_time_utc = none ∧ R.id < R'.id ∧
        ∃ r ∈ s'.rounds, r.id = R.id ∧ r.winner_name = R.winner_name ∧
          r.winner_time_utc = R.winner_time_utc ∧ r.is_active = false := by
  refine ⟨(insert_round (deactivate_rounds s)).2, rfl, ?_⟩
  have hmem := get_active_round_mem hR
  have hrounds : (insert_round (deactivate_rounds s)).2.rounds
      = (deactivate_rounds s).rounds ++ [⟨s.next_round_id, true, none, none⟩] := rfl
  refine ⟨⟨s.next_round_id, true, none, none⟩, ?_, rfl, rfl, hb R hmem.1, ?_⟩
  · show active_max (insert_round (deactivate_rounds s)).2.rounds = _
    rw [hrounds]
    apply active_max_append_lt
    · intro r hr
      obtain ⟨x, hx, rfl⟩ := List.mem_map.mp hr
      rw [deactivateUpd_id]
      exact hb x hx
    · rfl
  · refine ⟨deactivateUpd R, ?_, deactivateUpd_id R, deactivateUpd_winner_name R,
      deactivateUpd_winner_time R, deactivateUpd_inactive R⟩
    rw [hrounds]
    exact List.mem_append_left _ (List.mem_map_of_mem deactivateUpd hmem.1)

/-- Witness for C7 at a concrete decided store. -/
theorem reset_creates_fresh_state_witness :
    ∃ s', reset_round (Store.mk [⟨1, true, some "Alice", some "tA"⟩]
        [⟨1, 1, "Alice", "tA", true⟩] 2 2) none = .ok s' ∧
      ∃ R', get_active_round s' = some R' ∧
        R'.winner_name = none ∧ R'.winner_time_utc = none ∧
        (Round.mk 1 true (some "Alice") (some "tA")).id < R'.id ∧
        ∃ r ∈ s'.rounds, r.id = (Round.mk 1 true (some "Alice") (some "tA")).id ∧
          r.winner_name = (Round.mk 1 true (some "Alice") (some "tA")).winner_name ∧
          r.winner_time_utc = (Round.mk 1 true (some "Alice") (some "tA")).winner_time_utc ∧
          r.is_active = false :=
  reset_creates_fresh_state
    (Store.mk [⟨1, true, some "Alice", some "tA"⟩] [⟨1, 1, "Alice", "tA", true⟩] 2 2)
    (Round.mk 1 true (some "Alice") (some "tA")) (by decide) (by decide)

theorem foldl_latestAux_mem (l : List LogEntry) (acc : Option Nat) (b : Nat)
    (h : l.foldl latestAux acc = some b) : (∃ e ∈ l, e.id = b) ∨ acc = some b := by
  induction l generalizing acc with
  | nil => right; exact h
  | cons x xs ih =>
      simp only [List.foldl_cons] at h
      rcases ih (latestAux acc x) h with hmem | hacc
      · obtain ⟨e, he, hid⟩ := hmem
        exact Or.inl ⟨e, List.mem_cons_of_mem _ he, hid⟩
      · cases acc with
        | none =>
            simp only [latestAux] at hacc
            rw [Option.some_inj] at hacc
            exact Or.inl ⟨x, List.mem_cons_self x xs, hacc⟩
        | some a =>
            simp only [latestAux] at hacc
            split at hacc
            · rw [Option.some_inj] at hacc
              exact Or.inl ⟨x, List.mem_cons_self x xs, hacc⟩
            · right; exact hacc

theorem latest_append (l : List LogEntry) (e0 : LogEntry)
    (h : ∀ e ∈ l, e.id < e0.id) :
    (l ++ [e0]).foldl latestAux none = some e0.id := by
  rw [List.foldl_append]
  simp only [List.foldl_cons, List.foldl_nil]
  cases hacc : l.foldl latestAux none with
  | none => rfl
  | some b =>
      rcases foldl_latestAux_mem l none b hacc with hmem | hbad
      · obtain ⟨e, he, hid⟩ := hmem
        have : b < e0.id := hid ▸ h e he
        simp [latestAux, this]
      · exact absurd hbad (by simp)

/-- The central store-shape fact: in the winning path, the row marked by
`mark_latest_winner` is exactly the row `insert_log` just inserted (because
every pre-existing log id is below the autoincrement counter). -/
theorem win_log_shape (s : Store) (rid : Nat) (q t : String)
    (h : logIdsBounded s) :
    (mark_latest_winner (claim_winner (insert_log s rid q t) rid q t)).buzz_log
      = s.buzz_log ++ [⟨s.next_log_id, rid, q, t, true⟩] := by
  have hlog : (claim_winner (insert_log s rid q t) rid q t).buzz_log
      = s.buzz_log ++ [⟨s.next_log_id, rid, q, t, false⟩] := rfl
  have hlatest : latest_log_id (claim_winner (insert_log s rid q t) rid q t)
      = some s.next_log_id := by
    unfold latest_log_id
    rw [hlog]
    exact latest_append s.buzz_log ⟨s.next_log_id, rid, q, t, false⟩ h
  unfold mark_latest_winner
  rw [hlatest]
  simp only [hlog, List.map_append]
  congr 1
  · apply List.map_congr_left ?_ |>.trans (List.map_id _)
    intro e he
    have : e.id ≠ s.next_log_id := Nat.ne_of_lt (h e he)
    simp [this]
  · simp

theorem round_id_inj {s : Store} (h : roundIdsNodup s) :
    ∀ x ∈ s.rounds, ∀ y ∈ s.rounds, x.id = y.id → x = y := by
  intro x hx y hy hxy
  exact List.inj_on_of_nodup_map h hx hy hxy

theorem StoreInv_insert_log (s : Store) (rid : Nat) (p t : String)
    (h : StoreInv s) : StoreInv (insert_log s rid p t) := by
  obtain ⟨⟨hrb, hrn, hlb, hln⟩, hne, hiff, hwc, hback⟩ := h
  refine ⟨⟨hrb, hrn, ?_, ?_⟩, hne, hiff, ?_, ?_⟩
  · intro e he
    rcases List.mem_append.mp he with h5 | h5
    · exact Nat.lt_succ_of_lt (hlb e h5)
    · simp only [List.mem_singleton] at h5
      subst h5
      exact Nat.lt_succ_self _
  · show ((s.buzz_log ++ [(⟨s.next_log_id, rid, p, t, false⟩ : LogEntry)]).map LogEntry.id).Nodup
    rw [List.map_append, List.nodup_append]
    refine ⟨hln, List.nodup_singleton _, ?_⟩
    intro a ha hb
    simp only [List.map_cons, List.map_nil, List.mem_singleton] at hb
    obtain ⟨e, he, hid⟩ := List.mem_map.mp ha
    have := hlb e he
    omega
  · intro r hr hnn
    obtain ⟨h1, h2, h3, h4⟩ := hwc r hr hnn
    refine ⟨h1, h2, ?_, ?_⟩
    · show (s.buzz_log ++ [(⟨s.next_log_id, rid, p, t, false⟩ : LogEntry)]).countP _ = 1
      rw [List.countP_append, h3]
      simp [List.countP_cons]
    · intro e he hrid hww
      rcases List.mem_append.mp he with h5 | h5
      · exact h4 e h5 hrid hww
      · simp only [List.mem_singleton] at h5
        subst h5
        simp at hww
  · intro e he hww
    rcases List.mem_append.mp he with h5 | h5
    · exact hback e h5 hww
    · simp only [List.mem_singleton] at h5
      subst h5
      simp at hww

theorem mark_latest_winner_next_log (s : Store) :
    (mark_latest_winner s).next_log_id = s.next_log_id := by
  unfold mark_latest_winner
  split <;> rfl

theorem mark_latest_winner_next_round (s : Store) :
    (mark_latest_winner s).next_round_id = s.next_round_id := by
  unfold mark_latest_winner
  split <;> rfl

theorem StoreInv_win (s : Store) (R : Round) (q t : String)
    (h : StoreInv s) (hR : get_active_round s = some R) (hw : R.winner_name = none)
    (hq : q ≠ "") :
    StoreInv (mark_latest_winner (claim_winner (insert_log s R.id q t) R.id q t)) := by
  obtain ⟨⟨hrb, hrn, hlb, hln⟩, hne, hiff, hwc, hback⟩ := h
  have hmem := (get_active_round_mem hR).1
  have hlog4 := win_log_shape s R.id q t hlb
  have hrounds4 : (mark_latest_winner (claim_winner (insert_log s R.id q t) R.id q t)).rounds
      = s.rounds.map (claimUpd R.id q t) := by
    rw [mark_latest_winner_rounds, claim_winner_rounds, insert_log_rounds]
  have hnr : (mark_latest_winner (claim_winner (insert_log s R.id q t) R.id q t)).next_round_id
      = s.next_round_id := by
    rw [mark_latest_winner_next_round]; rfl
  have hnl : (mark_latest_winner (claim_winner (insert_log s R.id q t) R.id q t)).next_log_id
      = s.next_log_id + 1 := by
    rw [mark_latest_winner_next_log]; rfl
  have hnoold : ∀ e ∈ s.buzz_log, e.was_winner = true → e.round_id ≠ R.id := by
    intro e he hww hrid
    obtain ⟨r0, hr0, hid0, hwn0, _⟩ := hback e he hww
    have hr0R : r0 = R := round_id_inj hrn r0 hr0 R hmem (by rw [hid0, hrid])
    rw [hr0R, hw] at hwn0
    exact Option.noConfusion hwn0
  have hupdR : claimUpd R.id q t R
      = { R with winner_name := some q, winner_time_utc := some t } := by
    unfold claimUpd
    rw [if_pos ⟨rfl, hw⟩]
  have hupd_other : ∀ x : Round, x.id ≠ R.id → claimUpd R.id q t x = x := by
    intro x hx
    unfold claimUpd
    rw [if_neg]
    intro hcon
    exact hx hcon.1
  have hupd_decided : ∀ x : Round, x.winner_name ≠ none → claimUpd R.id q t x = x := by
    intro x hx
    unfold claimUpd
    rw [if_neg]
    intro hcon
    exact hx hcon.2
  refine ⟨⟨?_, ?_, ?_, ?_⟩, ?_, ?_, ?_, ?_⟩
  · intro r' hr'
    rw [hrounds4] at hr'
    obtain ⟨x, hx, rfl⟩ := List.mem_map.mp hr'
    rw [claimUpd_id, hnr]
    exact hrb x hx
  · show ((mark_latest_winner _).rounds.map Round.id).Nodup
    rw [hrounds4, List.map_map]
    have : s.rounds.map (Round.id ∘ claimUpd R.id q t) = s.rounds.map Round.id :=
      List.map_congr_left (fun x _ => claimUpd_id R.id q t x)
    rw [this]
    exact hrn
  · intro e he
    rw [hlog4] at he
    rw [hnl]
    rcases List.mem_append.mp he with h5 | h5
    · exact Nat.lt_succ_of_lt (hlb e h5)
    · simp only [List.mem_singleton] at h5
      subst h5
      exact Nat.lt_succ_self _
  · show ((mark_latest_winner _).buzz_log.map LogEntry.id).Nodup
    rw [hlog4, List.map_append, List.nodup_append]
    refine ⟨hln, List.nodup_singleton _, ?_⟩
    intro a ha hb
    simp only [List.map_cons, List.map_nil, List.mem_singleton] at hb
    obtain ⟨e, he, hid⟩ := List.mem_map.mp ha
    have := hlb e he
    omega
  · intro r' hr'
    rw [hrounds4] at hr'
    obtain ⟨x, hx, rfl⟩ := List.mem_map.mp hr'
    by_cases hxid : x.id = R.id
    · have hxR : x = R := round_id_inj hrn x hx R hmem hxid
      rw [hxR, hupdR]
      simp [hq]
    · rw [hupd_other x hxid]
      exact hne x hx
  · intro r' hr'
    rw [hrounds4] at hr'
    obtain ⟨x, hx, rfl⟩ := List.mem_map.mp hr'
    by_cases hxid : x.id = R.id
    · have hxR : x = R := round_id_inj hrn x hx R hmem hxid
      rw [hxR, hupdR]
      simp
    · rw [hupd_other x hxid]
      exact hiff x hx
  · intro r' hr' hnn
    rw [hrounds4] at hr'
    obtain ⟨x, hx, rfl⟩ := List.mem_map.mp hr'
    by_cases hxid : x.id = R.id
    · have hxR : x = R := round_id_inj hrn x hx R hmem hxid
      rw [hxR, hupdR]
      refine ⟨by simp, by simp, ?_, ?_⟩
      · show List.countP (fun e => e.round_id == R.id && e.was_winner)
          (mark_latest_winner (claim_winner (insert_log s R.id q t) R.id q t)).buzz_log = 1
        rw [hlog4, List.countP_append]
        have hc0 : s.buzz_log.countP
            (fun e => e.round_id == R.id && e.was_winner) = 0 := by
          rw [List.countP_eq_zero]
          intro e he hpred
          simp only [Bool.and_eq_true, beq_iff_eq] at hpred
          exact hnoold e he hpred.2 hpred.1
        rw [hc0]
        simp [List.countP_cons]
      · intro e he hrid hww
        have hrid' : e.round_id = R.id := hrid
        rw [hlog4] at he
        rcases List.mem_append.mp he with h5 | h5
        · exact absurd hrid' (hnoold e h5 hww)
        · simp only [List.mem_singleton] at h5
          subst h5
          exact ⟨rfl, rfl⟩
    · rw [hupd_other x hxid] at hnn ⊢
      obtain ⟨h1, h2, h3, h4⟩ := hwc x hx hnn
      refine ⟨h1, h2, ?_, ?_⟩
      · rw [hlog4, List.countP_append, h3]
        have : (([⟨s.next_log_id, R.id, q, t, true⟩] : List LogEntry).countP
            (fun e => e.round_id == x.id && e.was_winner)) = 0 := by
          simp [List.countP_cons, Ne.symm hxid]
        omega
      · intro e he hrid hww
        rw [hlog4] at he
        rcases List.mem_append.mp he with h5 | h5
        · exact h4 e h5 hrid hww
        · simp only [List.mem_singleton] at h5
          subst h5
          exact absurd hrid (Ne.symm hxid)
  · intro e he hww
    rw [hlog4] at he
    rcases List.mem_append.mp he with h5 | h5
    · obtain ⟨r0, hr0, hid0, hwn0, hwt0⟩ := hback e h5 hww
      have hfix : claimUpd R.id q t r0 = r0 := by
        apply hupd_decided
        rw [hwn0]
        exact Option.noConfusion
      refine ⟨r0, ?_, hid0, hwn0, hwt0⟩
      rw [hrounds4]
      exact hfix ▸ List.mem_map_of_mem _ hr0
    · simp only [List.mem_singleton] at h5
      subst h5
      refine ⟨claimUpd R.id q t R, ?_, ?_, ?_, ?_⟩
      · rw [hrounds4]
        exact List.mem_map_of_mem _ hmem
      · rw [claimUpd_id]
      · rw [hupdR]
      · rw [hupdR]

theorem StoreInv_insert_round (s : Store) (h : StoreInv s) :
    StoreInv (insert_round s).2 := by
  obtain ⟨⟨hrb, hrn, hlb, hln⟩, hne, hiff, hwc, hback⟩ := h
  have hrounds : (insert_round s).2.rounds
      = s.rounds ++ [⟨s.next_round_id, true, none, none⟩] := rfl
  refine ⟨⟨?_, ?_, hlb, hln⟩, ?_, ?_, ?_, ?_⟩
  · intro r hr
    rw [hrounds] at hr
    rcases List.mem_append.mp hr with h5 | h5
    · exact Nat.lt_succ_of_lt (hrb r h5)
    · simp only [List.mem_singleton] at h5
      subst h5
      exact Nat.lt_succ_self _
  · show ((insert_round s).2.rounds.map Round.id).Nodup
    rw [hrounds, List.map_append, List.nodup_append]
    refine ⟨hrn, List.nodup_singleton _, ?_⟩
    intro a ha hb
    simp only [List.map_cons, List.map_nil, List.mem_singleton] at hb
    obtain ⟨r, hr, hid⟩ := List.mem_map.mp ha
    have := hrb r hr
    omega
  · intro r hr
    rw [hrounds] at hr
    rcases List.mem_append.mp hr with h5 | h5
    · exact hne r h5
    · simp only [List.mem_singleton] at h5
      subst h5
      simp
  · intro r hr
    rw [hrounds] at hr
    rcases List.mem_append.mp hr with h5 | h5
    · exact hiff r h5
    · simp only [List.mem_singleton] at h5
      subst h5
      simp
  · intro r hr hnn
    rw [hrounds] at hr
    rcases List.mem_append.mp hr with h5 | h5
    · exact hwc r h5 hnn
    · simp only [List.mem_singleton] at h5
      subst h5
      rcases hnn with h6 | h6 <;> simp at h6
  · intro e he hww
    obtain ⟨r0, hr0, hid0, hwn0, hwt0⟩ := hback e he hww
    refine ⟨r0, ?_, hid0, hwn0, hwt0⟩
    rw [hrounds]
    exact List.mem_append_left _ hr0

theorem StoreInv_deactivate (s : Store) (h : StoreInv s) :
    StoreInv (deactivate_rounds s) := by
  obtain ⟨⟨hrb, hrn, hlb, hln⟩, hne, hiff, hwc, hback⟩ := h
  have hrounds : (deactivate_rounds s).rounds = s.rounds.map deactivateUpd := rfl
  refine ⟨⟨?_, ?_, hlb, hln⟩, ?_, ?_, ?_, ?_⟩
  · intro r hr
    rw [hrounds] at hr
    obtain ⟨x, hx, rfl⟩ := List.mem_map.mp hr
    rw [deactivateUpd_id]
    exact hrb x hx
  · show ((deactivate_rounds s).rounds.map Round.id).Nodup
    rw [hrounds, List.map_map]
    have : s.rounds.map (Round.id ∘ deactivateUpd) = s.rounds.map Round.id :=
      List.map_congr_left (fun x _ => deactivateUpd_id x)
    rw [this]
    exact hrn
  · intro r hr
    rw [hrounds] at hr
    obtain ⟨x, hx, rfl⟩ := List.mem_map.mp hr
    rw [deactivateUpd_winner_name]
    exact hne x hx
  · intro r hr
    rw [hrounds] at hr
    obtain ⟨x, hx, rfl⟩ := List.mem_map.mp hr
    rw [deactivateUpd_winner_name, deactivateUpd_winner_time]
    exact hiff x hx
  · intro r hr hnn
    rw [hrounds] at hr
    obtain ⟨x, hx, rfl⟩ := List.mem_map.mp hr
    rw [deactivateUpd_winner_name, deactivateUpd_winner_time] at hnn ⊢
    obtain ⟨h1, h2, h3, h4⟩ := hwc x hx hnn
    refine ⟨h1, h2, ?_, ?_⟩
    · show List.countP (fun e => e.round_id == (deactivateUpd x).id && e.was_winner)
        (deactivate_rounds s).buzz_log = 1
      have hbuzz : (deactivate_rounds s).buzz_log = s.buzz_log := rfl
      rw [hbuzz]
      have hpred : (fun (e : LogEntry) => e.round_id == (deactivateUpd x).id && e.was_winner)
          = (fun (e : LogEntry) => e.round_id == x.id && e.was_winner) := by
        funext e
        rw [deactivateUpd_id]
      rw [hpred]
      exact h3
    · intro e he hrid hww
      have hrid' : e.round_id = x.id := by rw [hrid, deactivateUpd_id]
      exact h4 e he hrid' hww
  · intro e he hww
    obtain ⟨r0, hr0, hid0, hwn0, hwt0⟩ := hback e he hww
    refine ⟨deactivateUpd r0, ?_, ?_, ?_, ?_⟩
    · rw [hrounds]
      exact List.mem_map_of_mem _ hr0
    · rw [deactivateUpd_id]
      exact hid0
    · rw [deactivateUpd_winner_name]
      exact hwn0
    · rw [deactivateUpd_winner_time]
      exact hwt0

theorem active_winner_ne_empty {s : Store} {R : Round} (h : StoreInv s)
    (hz : get_active_round s = some R) : R.winner_name ≠ some "" :=
  h.2.1 R (get_active_round_mem hz).1

theorem StoreInv_execOp (s : Store) (op : Op) (h : StoreInv s) :
    StoreInv (execOp s op) := by
  cases op with
  | buzz pn now fault =>
      rcases execOp_buzz_fault s pn now fault with he | he
      · rw [he]; exact h
      · rw [he]
        by_cases hname : strip (pn.getD "") = ""
        · rw [attempt_buzz_invalid s pn now none hname]
          exact h
        · cases hz : get_active_round s with
          | some R =>
              cases htr : truthy R.winner_name with
              | true =>
                  obtain ⟨w, hw, hwne⟩ := truthy_eq_true htr
                  rw [attempt_buzz_decided s pn now R w hz hw hwne hname]
                  exact StoreInv_insert_log s R.id _ now h
              | false =>
                  have hwnone : R.winner_name = none := by
                    cases hwn : R.winner_name with
                    | none => rfl
                    | some w =>
                        rw [hwn] at htr
                        by_cases hwe : w = ""
                        · subst hwe
                          exact absurd hwn (active_winner_ne_empty h hz)
                        · simp [truthy, hwe] at htr
                  rw [attempt_buzz_untruthy s pn now R hz htr hname,
                    claim_and_finish_snd]
                  exact StoreInv_win s R _ now h hz hwnone hname
          | none =>
              rw [attempt_buzz_selfheal s pn now hz hname, claim_and_finish_snd]
              have h0 := StoreInv_insert_round s h
              have hR0 : get_active_round (insert_round s).2
                  = some ⟨s.next_round_id, true, none, none⟩ := by
                show active_max (s.rounds ++ [⟨s.next_round_id, true, none, none⟩]) = _
                exact active_max_append_lt s.rounds _ (fun r hr => h.1.1 r hr) rfl
              exact StoreInv_win (insert_round s).2 ⟨s.next_round_id, true, none, none⟩
                _ now h0 hR0 rfl hname
  | reset fault =>
      rcases execOp_reset_fault s fault with he | he
      · rw [he]; exact h
      · rw [he]
        exact StoreInv_insert_round _ (StoreInv_deactivate s h)

theorem StoreInv_runOps (ops : List Op) : ∀ s, StoreInv s → StoreInv (runOps s ops) := by
  induction ops with
  | nil => intro s h; exact h
  | cons op ops ih =>
      intro s h
      exact ih (execOp s op) (StoreInv_execOp s op h)

theorem StoreInv_initStore : StoreInv initStore := by decide

theorem win_inserted_row (s : Store) (pn : Option String) (now : String)
    (h : logIdsBounded s)
    (hwon : (attempt_buzz s pn now none).1.1 = true) :
    ∃ e ∈ ((attempt_buzz s pn now none).2).buzz_log,
      e.id = s.next_log_id ∧ e.was_winner = true := by
  by_cases hname : strip (pn.getD "") = ""
  · rw [attempt_buzz_invalid s pn now none hname] at hwon
    simp at hwon
  · cases hz : get_active_round s with
    | some R =>
        cases htr : truthy R.winner_name with
        | true =>
            obtain ⟨w, hw, hwne⟩ := truthy_eq_true htr
            rw [attempt_buzz_decided s pn now R w hz hw hwne hname] at hwon
            simp at hwon
        | false =>
            rw [attempt_buzz_untruthy s pn now R hz htr hname]
            refine ⟨⟨s.next_log_id, R.id, strip (pn.getD ""), now, true⟩, ?_, rfl, rfl⟩
            rw [claim_and_finish_snd, win_log_shape s R.id _ now h]
            exact List.mem_append_right _ (List.mem_singleton_self _)
    | none =>
        rw [attempt_buzz_selfheal s pn now hz hname]
        have h0 : logIdsBounded (insert_round s).2 := h
        refine ⟨⟨s.next_log_id, s.next_round_id, strip (pn.getD ""), now, true⟩, ?_, rfl, rfl⟩
        rw [claim_and_finish_snd, win_log_shape (insert_round s).2 s.next_round_id _ now h0]
        exact List.mem_append_right _ (List.mem_singleton_self _)

/-- C3 (P3, winner consistency): after any sequence of engine operations from
the initialized store, every round with non-null winner fields has exactly
one winning log row, carrying exactly the winner name and time of the round; and
whenever a buzz call returns won=true, the log row it marked as winner is
the very row that call inserted (the row with the pre-call autoincrement
id). -/
theorem winner_consistency_after_ops :
    (∀ ops, winnerConsistent (runOps initStore ops)) ∧
    (∀ ops pn now,
      (attempt_buzz (runOps initStore ops) pn now none).1.1 = true →
      ∃ e ∈ ((attempt_buzz (runOps initStore ops) pn now none).2).buzz_log,
        e.id = (runOps initStore ops).next_log_id ∧ e.was_winner = true) := by
  have hreach : ∀ ops, StoreInv (runOps initStore ops) :=
    fun ops => StoreInv_runOps ops initStore StoreInv_initStore
  refine ⟨fun ops => (hreach ops).2.2.2.1, fun ops pn now hwon =>
    win_inserted_row _ pn now (hreach ops).1.2.2.1 hwon⟩

/-- Witness for C3 at the initial store and a concrete winning call. -/
theorem winner_consistency_witness :
    ∃ e ∈ ((attempt_buzz (runOps initStore []) (some "Alice") "t0" none).2).buzz_log,
      e.id = (runOps initStore []).next_log_id ∧ e.was_winner = true :=
  winner_consistency_after_ops.2 [] (some "Alice") "t0" (by decide)

/-- Witness for C1: Alice then Bob on the fresh store. -/
theorem single_winner_per_round_witness :
    (buzzMany initStore [("Alice", "t1"), ("Bob", "t2")]).1.countP (fun r => r.1) = 1 ∧
    (buzzMany initStore [("Alice", "t1"), ("Bob", "t2")]).1.head?
      = some (true, "✅ You buzzed in FIRST!") ∧
    (∀ r ∈ (buzzMany initStore [("Alice", "t1"), ("Bob", "t2")]).1.tail,
        r = (false, "Too late — " ++ strip "Alice" ++ " already buzzed first.")) ∧
    (∀ s' ∈ buzzStores initStore [("Alice", "t1"), ("Bob", "t2")],
        ∃ R', get_active_round s' = some R' ∧
          R'.id = (Round.mk 1 true none none).id ∧
          R'.winner_name = some (strip "Alice") ∧
          R'.winner_time_utc = some "t1") :=
  single_winner_per_round initStore (Round.mk 1 true none none) "Alice" "t1"
    [("Bob", "t2")] (by decide) (by decide) (by decide) (by decide) (by decide)

/-- C2 evidence: the code of src/app.py lines 105-117 (`claim_and_finish`)
does not check whether the conditional winner update set a row.  At a store
whose round 1 was already won by Alice, the update matches no row (the
rounds table is unchanged), yet the call still returns won=true and even
marks the latest log row — the losing attempt by Bob — as winner. -/
theorem race_lost_still_returns_true :
    (claim_winner (Store.mk [⟨1, true, some "Alice", some "tA"⟩]
        [⟨1, 1, "Alice", "tA", true⟩, ⟨2, 1, "Bob", "tB", false⟩] 2 3) 1 "Bob" "tB").rounds
      = [⟨1, true, some "Alice", some "tA"⟩] ∧
    (claim_and_finish (Store.mk [⟨1, true, some "Alice", some "tA"⟩]
        [⟨1, 1, "Alice", "tA", true⟩, ⟨2, 1, "Bob", "tB", false⟩] 2 3) 1 "Bob" "tB").1
      = (true, "✅ You buzzed in FIRST!") ∧
    (claim_and_finish (Store.mk [⟨1, true, some "Alice", some "tA"⟩]
        [⟨1, 1, "Alice", "tA", true⟩, ⟨2, 1, "Bob", "tB", false⟩] 2 3) 1 "Bob" "tB").2.buzz_log
      = [⟨1, 1, "Alice", "tA", true⟩, ⟨2, 1, "Bob", "tB", true⟩] := by
  refine ⟨by decide, rfl, by decide⟩

/-- C4 (P5): a name that is empty after trimming is rejected with the fixed
message, the store is returned unchanged, and this happens before the
transaction: even a backend that would fault at `BEGIN IMMEDIATE` (fault
index 0) is never observed. -/
theorem empty_name_rejected (s : Store) (pn : Option String) (now : String)
    (fault : Option (Nat × String)) (h : strip (pn.getD "") = "") :
    attempt_buzz s pn now fault = ((false, "Enter your name first."), s) :=
  attempt_buzz_invalid s pn now fault h

/-- Witness for C4 with a whitespace-only name and a poisoned backend. -/
theorem empty_name_rejected_witness :
    attempt_buzz initStore (some "   ") "t0" (some (0, "boom"))
      = ((false, "Enter your name first."), initStore) :=
  empty_name_rejected initStore (some "   ") "t0" (some (0, "boom")) (by decide)

/-- C10: `attempt_buzz` is total on a missing name: `None` (and the other
falsy string value, the empty string) is coerced by `player_name or ""` and
rejected exactly like an empty name, with no store access at all. -/
theorem none_name_total (s : Store) (now : String) (fault : Option (Nat × String)) :
    attempt_buzz s none now fault = ((false, "Enter your name first."), s) ∧
    attempt_buzz s (some "") now fault = ((false, "Enter your name first."), s) :=
  ⟨attempt_buzz_invalid s none now fault (by decide),
   attempt_buzz_invalid s (some "") now fault (by decide)⟩

/-- C6 (storage-fault atomicity): for every injected backend fault, either
the fault is actually raised during the call, in which case the call returns
`(false, "Database error: <detail>")` and the store is exactly the
pre-call store (every write of the transaction, including the attempt-log
insert, is rolled back), or the fault point is never executed and the call
behaves exactly like a fault-free call. -/
theorem storage_fault_atomicity (s : Store) (pn : Option String) (now : String)
    (k : Nat) (d : String) :
    attempt_buzz s pn now (some (k, d)) = ((false, "Database error: " ++ d), s)
    ∨ attempt_buzz s pn now (some (k, d)) = attempt_buzz s pn now none :=
  attempt_buzz_fault_split s pn now k d

/-- C8 evidence: `reset_round` has no except-handler, so a storage fault at
any of its four statements (BEGIN, deactivate UPDATE, INSERT, COMMIT)
escapes as a raised exception (`Except.error`) instead of being returned as
a failure value. -/
theorem reset_round_fault_raises (s : Store) (k : Nat) (d : String) (hk : k ≤ 3) :
    reset_round s (some (k, d)) = Except.error d := by
  unfold reset_round
  interval_cases k <;> simp [faultHere, faultMsg]

/-- Witness for C8: a concrete fault during the deactivate UPDATE. -/
theorem reset_round_fault_raises_witness :
    reset_round initStore (some (1, "disk I/O error"))
      = Except.error "disk I/O error" :=
  reset_round_fault_raises initStore 1 "disk I/O error" (by decide)

/-- C5 counterexample: on the fresh system the first call does not return
exactly (true, "You buzzed in FIRST!") — the code message carries a leading
checkmark emoji. -/
theorem scenario_a_message_differs :
    (attempt_buzz initStore (some "Alice") "2026-01-01T00:00:00.000+00:00" none).1
      ≠ (true, "You buzzed in FIRST!") := by
  decide

/-- C5 amended: Scenario A with the exact messages of the code — the winning
message is "✅ You buzzed in FIRST!" (checkmark emoji included); the
subsequent Bob call gets exactly "Too late — Alice already buzzed first.",
for any timestamps. -/
theorem scenario_a_exact (t1 t2 : String) :
    (attempt_buzz initStore (some "Alice") t1 none).1
      = (true, "✅ You buzzed in FIRST!") ∧
    (attempt_buzz (attempt_buzz initStore (some "Alice") t1 none).2
        (some "Bob") t2 none).1
      = (false, "Too late — Alice already buzzed first.") := by
  have h1 : get_active_round initStore = some ⟨1, true, none, none⟩ := by decide
  have hp : strip ((some "Alice").getD "") ≠ "" := by decide
  have hw1 := active_after_open_win initStore (some "Alice") t1 ⟨1, true, none, none⟩
    h1 rfl hp
  constructor
  · rw [attempt_buzz_open initStore (some "Alice") t1 _ h1 rfl hp, claim_and_finish_fst]
  · have hA : strip ((some "Alice").getD "") = "Alice" := by decide
    rw [hA] at hw1
    have h2 := attempt_buzz_decided ((attempt_buzz initStore (some "Alice") t1 none).2)
      (some "Bob") t2 _ "Alice" hw1 rfl (by decide) (by decide)
    rw [h2]
    show (false, "Too late — " ++ "Alice" ++ " already buzzed first.")
      = (false, "Too late — Alice already buzzed first.")
    decide

/-- Witness for C9 discharging the hypothesis-bearing conjuncts at concrete
inputs: a fault-free reset and a buzz on the initialized store, and the
self-healing buzz on a store with no active round. -/
theorem exactly_one_active_round_witness :
    activeCount (execOp initStore (Op.reset none)) = 1 ∧
    ((attempt_buzz initStore (some "Alice") "t0" none).2).rounds.length
      = initStore.rounds.length ∧
    activeCount ((attempt_buzz emptyStore (some "Alice") "t0" none).2)
      = activeCount emptyStore + 1 :=
  ⟨exactly_one_active_round.2.1 initStore (Op.reset none) (by decide),
   exactly_one_active_round.2.2.1 initStore (some "Alice") "t0" (by decide),
   exactly_one_active_round.2.2.2.2 emptyStore (some "Alice") "t0" (by decide) (by decide)⟩

